import Mathlib

/-!
Verification of the momentum-gainer streaming monitor (`src/main.py`).

The embedding models the module-level Python dictionaries as association
lists with Python-dict semantics (insertion order kept, assignment
overwrites in place, new keys are appended), prices as rationals, volumes
as integers.  A Python exception escaping a computation is modelled as
`Option.none` / an error flag.
-/

namespace TradingData

abbrev Ticker := String

/-- A Python dict with `Ticker` keys, kept as an insertion-ordered
association list.  Keys are unique in every state reachable from `{}`. -/
abbrev Dict (α : Type) := List (Ticker × α)

/-- `d[k]` lookup: `some` of the first binding of `k`, `none` when the key
is absent (so `k in d` is `(dget? d k).isSome`). -/
def dget? : Dict α → Ticker → Option α
  | [], _ => none
  | p :: d, k => if p.1 = k then some p.2 else dget? d k

/-- `d[k] = v`: overwrite the binding in place when the key exists, append
otherwise (Python dict assignment keeps the original insertion position). -/
def dinsert : Dict α → Ticker → α → Dict α
  | [], k, v => [(k, v)]
  | p :: d, k, v => if p.1 = k then (k, v) :: d else p :: dinsert d k v

theorem dget?_dinsert_self (d : Dict α) (k : Ticker) (v : α) :
    dget? (dinsert d k v) k = some v := by
  induction d with
  | nil => simp [dinsert, dget?]
  | cons p d ih =>
    by_cases hp : p.1 = k
    · simp [dinsert, dget?, hp]
    · simp [dinsert, dget?, hp, ih]

theorem dget?_dinsert_ne (d : Dict α) (k k' : Ticker) (v : α) (h : k' ≠ k) :
    dget? (dinsert d k v) k' = dget? d k' := by
  have h' : k ≠ k' := Ne.symm h
  induction d with
  | nil => simp [dinsert, dget?, h']
  | cons p d ih =>
    by_cases hp : p.1 = k
    · simp [dinsert, dget?, hp, h']
    · simp [dinsert, dget?, hp, ih]

theorem isSome_dget?_dinsert (d : Dict α) (k k' : Ticker) (v : α)
    (h : (dget? d k').isSome) : (dget? (dinsert d k v) k').isSome := by
  by_cases hk : k' = k
  · subst hk; simp [dget?_dinsert_self]
  · rwa [dget?_dinsert_ne d k k' v hk]

theorem keys_dinsert (d : Dict α) (k : Ticker) (v : α) :
    (dinsert d k v).map Prod.fst =
      if (dget? d k).isSome then d.map Prod.fst else d.map Prod.fst ++ [k] := by
  induction d with
  | nil => simp [dinsert, dget?]
  | cons p d ih =>
    by_cases hp : p.1 = k
    · simp [dinsert, dget?, hp]
    · simp only [dinsert, if_neg hp, List.map_cons, dget?, ih]
      by_cases hs : (dget? d k).isSome <;> simp [hs, hp]

theorem isSome_dget?_of_mem_keys (d : Dict α) (k : Ticker)
    (h : k ∈ d.map Prod.fst) : (dget? d k).isSome := by
  induction d with
  | nil => simp at h
  | cons p d ih =>
    by_cases hp : p.1 = k
    · simp [dget?, hp]
    · simp only [List.map_cons, List.mem_cons] at h
      rcases h with h | h
      · exact absurd h.symm hp
      · simpa [dget?, hp] using ih h

theorem nodupKeys_dinsert (d : Dict α) (k : Ticker) (v : α)
    (h : (d.map Prod.fst).Nodup) : ((dinsert d k v).map Prod.fst).Nodup := by
  rw [keys_dinsert]
  by_cases hs : (dget? d k).isSome
  · simpa [hs] using h
  · have hk : k ∉ d.map Prod.fst := fun hmem => hs (isSome_dget?_of_mem_keys d k hmem)
    simp only [hs, if_false]
    refine h.append (List.nodup_singleton k) ?_
    intro a ha hb
    simp only [List.mem_singleton] at hb
    exact hk (hb ▸ ha)

/-- With unique keys, the number of bindings of a freshly assigned key is
exactly one. -/
theorem countP_key_dinsert (d : Dict α) (k : Ticker) (v : α)
    (h : (d.map Prod.fst).Nodup) :
    (dinsert d k v).countP (fun p => p.1 == k) = 1 := by
  induction d with
  | nil => simp [dinsert, List.countP_cons]
  | cons p d ih =>
    simp only [List.map_cons, List.nodup_cons] at h
    by_cases hp : p.1 = k
    · have : d.countP (fun p => p.1 == k) = 0 := by
        rw [List.countP_eq_zero]
        intro q hq
        simp only [beq_iff_eq]
        intro hqk
        exact h.1 (hp ▸ hqk ▸ List.mem_map_of_mem Prod.fst hq)
      simp [dinsert, hp, List.countP_cons, this]
    · simp [dinsert, hp, List.countP_cons, ih h.2]

/-! ### Data model (`src/main.py` lines 12-15, 59-78) -/

/-- The dict literal written to `gainers[ticker]` (lines 72-76). -/
structure GainerRecord where
  price : ℚ
  pct_change : ℚ
  volume : ℤ
deriving DecidableEq

/-- The three module-level dicts (lines 13-15): `yesterday_close`,
`running_volume`, `gainers`. -/
structure PipelineState where
  yesterday_close : Dict ℚ
  running_volume : Dict ℤ
  gainers : Dict GainerRecord
deriving DecidableEq

/-- One JSON object of an inbound message array.  `ev` is read with
`event.get("ev")` (no exception when absent); `T`, `c`, `v` are read with
`event["..."]`, so `none` there models a `KeyError`. -/
structure RawEvent where
  ev : Option String
  T : Option Ticker
  c : Option ℚ
  v : Option ℤ
deriving DecidableEq

/-- One inbound websocket message: either a JSON array of event objects,
or a message on which `json.loads` (or iterating the payload) raises. -/
inductive StreamMsg where
  | malformed : StreamMsg
  | events : List RawEvent → StreamMsg
deriving DecidableEq

/-- Lines 67 and 69-71: percent change from the reference price and the
threshold test.  `none` models the `ZeroDivisionError` raised at line 67
when the reference price is `0`; otherwise the result carries the
qualification boolean and the computed percent change. -/
def gainerEval (prev_close close_price : ℚ) (cum_volume : ℤ) : Option (Bool × ℚ) :=
  if prev_close = 0 then none
  else
    let pct_change := (close_price - prev_close) / prev_close * 100
    some (decide (pct_change ≥ 5) && decide (cum_volume ≥ 2000000)
            && decide (close_price ≥ 3), pct_change)

/-- Lines 60-78: process one event object of a message.  `none` models an
exception escaping the loop body (a `KeyError` on a missing field of an
`AM` event, or the division by a zero reference price); the dicts are
untouched in that case because in the source every raising expression runs
before the first mutation. -/
def processEvent (st : PipelineState) (e : RawEvent) : Option PipelineState :=
  if e.ev = some "AM" then
    match e.T, e.c, e.v with
    | some ticker, some close_price, some volume =>
      match dget? st.yesterday_close ticker with
      | none => some st
      | some prev_close =>
        let newVol := (dget? st.running_volume ticker).getD 0 + volume
        match gainerEval prev_close close_price newVol with
        | none => none
        | some (q, pct_change) =>
          let st' := { st with running_volume := dinsert st.running_volume ticker newVol }
          if q then
            some { st' with
              gainers := dinsert st'.gainers ticker ⟨close_price, pct_change, newVol⟩ }
          else some st'
    | _, _, _ => none
  else some st

/-- Lines 59-78: the `for event in data` loop over one message.  The
boolean is `true` when an exception escaped; mutations made by earlier
events of the same message persist. -/
def processEvents (st : PipelineState) : List RawEvent → PipelineState × Bool
  | [] => (st, false)
  | e :: es =>
    match processEvent st e with
    | none => (st, true)
    | some st' => processEvents st' es

/-- Line 58 onward: decode one message and run the event loop;
`malformed` models `json.loads` raising. -/
def processMsg (st : PipelineState) : StreamMsg → PipelineState × Bool
  | .malformed => (st, true)
  | .events es => processEvents st es

/-- Lines 55-83: the `async for msg in ws` loop inside `try`.  The
`try/except` wraps the whole loop, so the first escaping exception is
caught and logged outside the loop and no later message is processed; the
boolean reports that the loop ended through a handler. -/
def streamLoop (st : PipelineState) : List StreamMsg → PipelineState × Bool
  | [] => (st, false)
  | m :: ms =>
    match processMsg st m with
    | (st', true) => (st', true)
    | (st', false) => streamLoop st' ms

/-! ### Startup (`src/main.py` lines 33-46, 86-93) -/

/-- The provider's HTTP reply: status code and the optional `results`
array of `{T, c}` objects (`data.get("results", [])` treats a missing
array permissively). -/
structure HttpResponse where
  status : ℕ
  results : Option (List (Ticker × ℚ))

/-- Lines 33-46: `fetch_yesterday_closes` as a function of the single HTTP
response.  A non-200 status returns early, leaving the module-level store
as it started (empty); otherwise each result is absorbed, last write
winning. -/
def fetch_yesterday_closes (resp : HttpResponse) : Dict ℚ :=
  if resp.status ≠ 200 then []
  else (resp.results.getD []).foldl (fun st p => dinsert st p.1 p.2) []

/-- Outcome of one process run (`main`, lines 86-93): either the stream
phase ran (with its final state and how it ended), or startup aborted with
the fatal `Could not fetch initial data` report. -/
inductive RunOutcome where
  | streamed : PipelineState → Bool → RunOutcome
  | fatalStartup : RunOutcome

/-- Lines 86-93: fetch the reference prices, then stream only if the store
is non-empty. -/
def main (resp : HttpResponse) (msgs : List StreamMsg) : RunOutcome :=
  let yc := fetch_yesterday_closes resp
  if yc.isEmpty then .fatalStartup
  else
    let r := streamLoop ⟨yc, [], []⟩ msgs
    .streamed r.1 r.2

/-! ### Shape lemmas for one processing step -/

/-- An `AM` bar event with all fields present, as emitted by the feed. -/
def mkBar (t : Ticker) (c : ℚ) (v : ℤ) : RawEvent :=
  ⟨some "AM", some t, some c, some v⟩

/-- Full description of one step on a known ticker with a non-zero
reference price: the cumulative volume is written back and the gainers
dict is updated exactly when the three thresholds hold of the cumulative
volume. -/
theorem processEvent_known (st : PipelineState) (t : Ticker) (c : ℚ) (v : ℤ)
    (P : ℚ) (hP : dget? st.yesterday_close t = some P) (hne : P ≠ 0) :
    processEvent st (mkBar t c v) =
      some (if (c - P) / P * 100 ≥ 5 ∧ (dget? st.running_volume t).getD 0 + v ≥ 2000000 ∧ c ≥ 3
            then { st with
                   running_volume :=
                     dinsert st.running_volume t ((dget? st.running_volume t).getD 0 + v),
                   gainers :=
                     dinsert st.gainers t
                       ⟨c, (c - P) / P * 100, (dget? st.running_volume t).getD 0 + v⟩ }
            else { st with
                   running_volume :=
                     dinsert st.running_volume t ((dget? st.running_volume t).getD 0 + v) }) := by
  simp only [processEvent, mkBar, if_pos rfl, hP, gainerEval, if_neg hne]
  by_cases hq : (c - P) / P * 100 ≥ 5 ∧ (dget? st.running_volume t).getD 0 + v ≥ 2000000 ∧ c ≥ 3
  · simp only [if_pos hq]
    obtain ⟨h1, h2, h3⟩ := hq
    simp [h1, h2, h3]
  · simp only [if_neg hq]
    rcases not_and_or.mp hq with h | h23
    · simp [show ¬(c - P) / P * 100 ≥ 5 from h]
    · rcases not_and_or.mp h23 with h | h
      · simp [show ¬(dget? st.running_volume t).getD 0 + v ≥ 2000000 from h]
      · simp [show ¬c ≥ 3 from h]

/-- One event step never touches the reference-price dict. -/
theorem processEvent_yesterday_close (st : PipelineState) (e : RawEvent)
    (st' : PipelineState) (h : processEvent st e = some st') :
    st'.yesterday_close = st.yesterday_close := by
  obtain ⟨ev, T, c, v⟩ := e
  rw [processEvent] at h
  by_cases hev : ev = some "AM"
  · rw [if_pos hev] at h
    rcases T with _ | t
    · exact absurd h (by simp)
    rcases c with _ | cp
    · exact absurd h (by simp)
    rcases v with _ | vol
    · exact absurd h (by simp)
    dsimp only at h
    cases hyc : dget? st.yesterday_close t with
    | none =>
      rw [hyc] at h
      injection h with h
      subst h; rfl
    | some P =>
      rw [hyc] at h
      dsimp only at h
      cases hg : gainerEval P cp ((dget? st.running_volume t).getD 0 + vol) with
      | none => rw [hg] at h; exact absurd h (by simp)
      | some qp =>
        rw [hg] at h
        obtain ⟨q, pct⟩ := qp
        dsimp only at h
        cases q with
        | true =>
          rw [if_pos rfl] at h
          injection h with h
          subst h; rfl
        | false =>
          rw [if_neg (by simp)] at h
          injection h with h
          subst h; rfl
  · rw [if_neg hev] at h
    injection h with h
    subst h; rfl

/-- The event loop of one message never touches the reference-price dict. -/
theorem processEvents_yesterday_close (es : List RawEvent) (st : PipelineState) :
    (processEvents st es).1.yesterday_close = st.yesterday_close := by
  induction es generalizing st with
  | nil => rfl
  | cons e es ih =>
    rw [processEvents]
    cases he : processEvent st e with
    | none => rfl
    | some st' => rw [ih st', processEvent_yesterday_close st e st' he]

/-- The whole stream loop never touches the reference-price dict. -/
theorem streamLoop_yesterday_close (msgs : List StreamMsg) (st : PipelineState) :
    (streamLoop st msgs).1.yesterday_close = st.yesterday_close := by
  induction msgs generalizing st with
  | nil => rfl
  | cons m ms ih =>
    rw [streamLoop]
    cases m with
    | malformed => rfl
    | events es =>
      cases hp : processEvents st es with
      | mk st' b =>
        have hyc : st'.yesterday_close = st.yesterday_close := by
          have := processEvents_yesterday_close es st
          rw [hp] at this; exact this
        cases b with
        | true => simpa [processMsg, hp] using hyc
        | false => simp only [processMsg, hp]; rw [ih st', hyc]

/-! ### The claims -/

/-- Claim C1: for every previous close `P > 0`, current close `C` and
cumulative volume `V`, the gainer evaluation qualifies exactly when
`(C - P) / P * 100 ≥ 5`, `V ≥ 2000000` and `C ≥ 3` all hold — a
simultaneous conjunction of the three thresholds. -/
theorem claim_C1_qualification_rule (P C : ℚ) (V : ℤ) (hP : 0 < P) :
    (gainerEval P C V).map Prod.fst = some true ↔
      ((C - P) / P * 100 ≥ 5 ∧ V ≥ 2000000 ∧ C ≥ 3) := by
  rw [gainerEval, if_neg (ne_of_gt hP)]
  simp [and_assoc]

/-- Witness for C1 at the spec's first end-to-end scenario (reference 100,
close 106, cumulative volume 2,100,000: qualifies). -/
theorem claim_C1_qualification_rule_witness :
    (gainerEval 100 106 2100000).map Prod.fst = some true :=
  (claim_C1_qualification_rule 100 106 2100000 (by norm_num)).mpr (by norm_num)

/-- Counterexample to claim C2: with reference price `P = 0` the source
divides by zero at line 67, so evaluation raises (`none`) instead of
quietly not qualifying — both for the bare evaluation and for a full event
step on a ticker whose stored reference price is `0`. -/
theorem claim_C2_counterexample :
    gainerEval 0 10 3000000 = none ∧
      processEvent ⟨[("Z", 0)], [], []⟩ (mkBar "Z" 10 3000000) = none := by
  constructor
  · simp [gainerEval]
  · have hz : dget? ([("Z", (0 : ℚ))]) "Z" = some 0 := by simp [dget?]
    simp [processEvent, mkBar, hz, gainerEval]

/-- Claim C2 as amended: for `P ≤ 0` the evaluation never qualifies, but
the division is neither unreachable nor guarded — for `P < 0` it evaluates
without fault (and reports no qualification), while at `P = 0` it raises a
division fault that the stream loop's catch-all handler then turns into
loop termination. -/
theorem claim_C2_amended_nonpositive (P C : ℚ) (V : ℤ) (hP : P ≤ 0) :
    (∀ pct, gainerEval P C V ≠ some (true, pct)) ∧
      (P = 0 → gainerEval P C V = none) ∧
      (P < 0 → ∃ pct, gainerEval P C V = some (false, pct)) := by
  refine ⟨?_, fun h0 => by rw [gainerEval, if_pos h0], ?_⟩
  · intro pct h
    rcases lt_or_eq_of_le hP with hlt | heq
    · rw [gainerEval, if_neg (ne_of_lt hlt)] at h
      simp only [Option.some.injEq, Prod.mk.injEq, Bool.and_eq_true,
        decide_eq_true_eq] at h
      obtain ⟨⟨⟨h5, _⟩, h3⟩, _⟩ := h
      have hpos : 0 < C - P := by linarith
      have hneg : (C - P) / P < 0 := div_neg_of_pos_of_neg hpos hlt
      nlinarith
    · rw [gainerEval, if_pos heq] at h
      exact Option.noConfusion h
  · intro hlt
    rw [gainerEval, if_neg (ne_of_lt hlt)]
    refine ⟨(C - P) / P * 100, ?_⟩
    by_cases h3 : C ≥ 3
    · have hpos : 0 < C - P := by linarith
      have hneg : (C - P) / P < 0 := div_neg_of_pos_of_neg hpos hlt
      have h5 : ¬(C - P) / P * 100 ≥ 5 := by nlinarith
      simp [h5]
    · simp [h3]

/-- Witness for the amended C2 at `P = -1`: no qualification, and the
negative-reference case evaluates without fault. -/
theorem claim_C2_amended_nonpositive_witness :
    (∀ pct, gainerEval (-1) 10 3000000 ≠ some (true, pct)) ∧
      ((-1 : ℚ) = 0 → gainerEval (-1) 10 3000000 = none) ∧
      ((-1 : ℚ) < 0 → ∃ pct, gainerEval (-1) 10 3000000 = some (false, pct)) :=
  claim_C2_amended_nonpositive (-1) 10 3000000 (by norm_num)

/-- Claim C4: a bar event whose ticker is absent from the reference-price
store is skipped entirely — the state after the event equals the state
before it (no volume accumulation, no evaluation, no alert), whatever the
bar's price and volume are. -/
theorem claim_C4_unknown_ticker_skipped (st : PipelineState) (e : RawEvent)
    (t : Ticker) (c : ℚ) (v : ℤ) (hT : e.T = some t) (hc : e.c = some c)
    (hv : e.v = some v) (habs : dget? st.yesterday_close t = none) :
    processEvent st e = some st := by
  rw [processEvent]
  by_cases hev : e.ev = some "AM"
  · rw [if_pos hev, hT, hc, hv]
    dsimp only
    rw [habs]
  · rw [if_neg hev]

/-- Witness for C4: the spec's scenario 3, ticker `NEW` with no reference
entry and an arbitrarily large bar. -/
theorem claim_C4_unknown_ticker_skipped_witness :
    processEvent ⟨[("AAPL", 100)], [], []⟩ ⟨some "AM", some "NEW", some 1000, some 9000000⟩ =
      some ⟨[("AAPL", 100)], [], []⟩ :=
  claim_C4_unknown_ticker_skipped _ _ "NEW" 1000 9000000 rfl rfl rfl (by
    simp [dget?])

/-- Claim C9: the reference-price store is immutable during streaming —
for every starting state and every sequence of stream messages, the
`yesterday_close` dict after the stream loop is exactly the one before
it. -/
theorem claim_C9_reference_store_immutable (st : PipelineState) (msgs : List StreamMsg) :
    (streamLoop st msgs).1.yesterday_close = st.yesterday_close :=
  streamLoop_yesterday_close msgs st

/-- One step on a known ticker, field view: the step always succeeds, the
reference dict is untouched and the cumulative volume is written back. -/
theorem processEvent_known_fields (st : PipelineState) (t : Ticker) (c : ℚ) (v : ℤ)
    (P : ℚ) (hP : dget? st.yesterday_close t = some P) (hne : P ≠ 0) :
    ∃ st1, processEvent st (mkBar t c v) = some st1 ∧
      st1.yesterday_close = st.yesterday_close ∧
      st1.running_volume =
        dinsert st.running_volume t ((dget? st.running_volume t).getD 0 + v) := by
  rw [processEvent_known st t c v P hP hne]
  refine ⟨_, rfl, ?_, ?_⟩ <;> · split <;> rfl

/-- Running the event loop over a non-empty run of bars for one known
ticker: no fault, the reference dict is untouched, and the ticker's
running volume ends at its starting value plus the sum of the bar
volumes. -/
theorem processEvents_volume_sum (t : Ticker) (P : ℚ) (b : ℚ × ℤ)
    (bars : List (ℚ × ℤ)) (st : PipelineState)
    (hP : dget? st.yesterday_close t = some P) (hne : P ≠ 0) :
    ∃ st', processEvents st ((b :: bars).map (fun x => mkBar t x.1 x.2)) = (st', false) ∧
      st'.yesterday_close = st.yesterday_close ∧
      dget? st'.running_volume t =
        some ((dget? st.running_volume t).getD 0 + ((b :: bars).map Prod.snd).sum) := by
  induction bars generalizing st b with
  | nil =>
    obtain ⟨st1, hstep, hyc, hrv⟩ := processEvent_known_fields st t b.1 b.2 P hP hne
    refine ⟨st1, ?_, hyc, ?_⟩
    · simp [processEvents, hstep]
    · rw [hrv, dget?_dinsert_self]
      simp
  | cons b2 rest ih =>
    obtain ⟨st1, hstep, hyc, hrv⟩ := processEvent_known_fields st t b.1 b.2 P hP hne
    have hP1 : dget? st1.yesterday_close t = some P := by rw [hyc]; exact hP
    obtain ⟨st', hloop, hyc', hrv'⟩ := ih b2 st1 hP1
    refine ⟨st', ?_, by rw [hyc', hyc], ?_⟩
    · simp only [List.map_cons, processEvents, hstep]
      simpa using hloop
    · rw [hrv']
      rw [hrv, dget?_dinsert_self]
      simp [add_assoc]

/-- Counterexample to claim C3: the `try/except` in the source wraps the
whole `async for` loop, so after one malformed message the loop is over
and a following well-formed qualifying message is never processed — run
alone it produces an alert, run after the malformed message it does not. -/
theorem claim_C3_counterexample :
    (streamLoop ⟨[("AAPL", 100)], [], []⟩
        [StreamMsg.malformed, StreamMsg.events [mkBar "AAPL" 110 3000000]]).1.gainers = [] ∧
      (streamLoop ⟨[("AAPL", 100)], [], []⟩
        [StreamMsg.events [mkBar "AAPL" 110 3000000]]).1.gainers =
        [("AAPL", ⟨110, 10, 3000000⟩)] := by
  refine ⟨rfl, ?_⟩
  norm_num [streamLoop, processMsg, processEvents, processEvent, mkBar, dget?,
    gainerEval, dinsert]

/-- Claim C3 as amended: the error of a message that fails to decode is
caught and logged by the handler wrapped around the stream loop, so the
process does not crash and the state is kept — but the loop terminates
there; processing does not continue with the next message. -/
theorem claim_C3_amended_malformed_terminates (st : PipelineState)
    (rest : List StreamMsg) :
    streamLoop st (StreamMsg.malformed :: rest) = (st, true) := rfl

/-- Claim C5: over any run of bars for a known ticker (non-zero reference
price), the running volume after the run is its value before the run plus
the sum of the bar volumes — summed, never replaced — and on each single
bar the volume threshold is tested against the cumulative sum including
that bar, not against the bar's own volume. -/
theorem claim_C5_cumulative_volume (st : PipelineState) (t : Ticker) (P : ℚ)
    (b : ℚ × ℤ) (bars : List (ℚ × ℤ))
    (hP : dget? st.yesterday_close t = some P) (hne : P ≠ 0) :
    (∃ st', processEvents st ((b :: bars).map (fun x => mkBar t x.1 x.2)) = (st', false) ∧
        dget? st'.running_volume t =
          some ((dget? st.running_volume t).getD 0 + ((b :: bars).map Prod.snd).sum)) ∧
      (∀ stm, processEvent st (mkBar t b.1 b.2) = some stm →
        stm.gainers =
          if (b.1 - P) / P * 100 ≥ 5 ∧
              (dget? st.running_volume t).getD 0 + b.2 ≥ 2000000 ∧ b.1 ≥ 3
          then dinsert st.gainers t
            ⟨b.1, (b.1 - P) / P * 100, (dget? st.running_volume t).getD 0 + b.2⟩
          else st.gainers) := by
  constructor
  · obtain ⟨st', h1, _, h3⟩ := processEvents_volume_sum t P b bars st hP hne
    exact ⟨st', h1, h3⟩
  · intro stm hstep
    rw [processEvent_known st t b.1 b.2 P hP hne] at hstep
    injection hstep with hstep
    subst hstep
    split <;> rfl

/-- Witness for C5 at the spec's first end-to-end scenario: reference 100,
bars (106, volume 1,500,000) then (107, volume 600,000); the running
volume ends at 2,100,000 and the first bar's test uses 1,500,000. -/
theorem claim_C5_cumulative_volume_witness :
    (∃ st', processEvents ⟨[("AAPL", 100)], [], []⟩
        ([((106 : ℚ), (1500000 : ℤ)), (107, 600000)].map (fun x => mkBar "AAPL" x.1 x.2)) =
          (st', false) ∧
        dget? st'.running_volume "AAPL" =
          some ((dget? ([] : Dict ℤ) "AAPL").getD 0 +
            ([((106 : ℚ), (1500000 : ℤ)), (107, 600000)].map Prod.snd).sum)) ∧
      (∀ stm, processEvent ⟨[("AAPL", 100)], [], []⟩ (mkBar "AAPL" 106 1500000) = some stm →
        stm.gainers =
          if ((106 : ℚ) - 100) / 100 * 100 ≥ 5 ∧
              (dget? ([] : Dict ℤ) "AAPL").getD 0 + (1500000 : ℤ) ≥ 2000000 ∧ (106 : ℚ) ≥ 3
          then dinsert ([] : Dict GainerRecord) "AAPL"
            ⟨106, ((106 : ℚ) - 100) / 100 * 100, (dget? ([] : Dict ℤ) "AAPL").getD 0 + 1500000⟩
          else ([] : Dict GainerRecord)) :=
  claim_C5_cumulative_volume ⟨[("AAPL", 100)], [], []⟩ "AAPL" 100
    (106, 1500000) [(107, 600000)] (by simp [dget?]) (by norm_num)

/-- Claim C6: when a ticker qualifies twice, the alert store afterwards
holds exactly one binding for it, and that binding is the record of the
latest qualification (overwrite, not append). -/
theorem claim_C6_alert_overwrite (st : PipelineState) (t : Ticker) (P : ℚ)
    (c1 c2 : ℚ) (v1 v2 : ℤ)
    (hwf : (st.gainers.map Prod.fst).Nodup)
    (hP : dget? st.yesterday_close t = some P) (hne : P ≠ 0)
    (hq1 : (c1 - P) / P * 100 ≥ 5 ∧
      (dget? st.running_volume t).getD 0 + v1 ≥ 2000000 ∧ c1 ≥ 3)
    (hq2 : (c2 - P) / P * 100 ≥ 5 ∧
      (dget? st.running_volume t).getD 0 + v1 + v2 ≥ 2000000 ∧ c2 ≥ 3) :
    ∃ st1 st2, processEvent st (mkBar t c1 v1) = some st1 ∧
      processEvent st1 (mkBar t c2 v2) = some st2 ∧
      dget? st2.gainers t =
        some ⟨c2, (c2 - P) / P * 100, (dget? st.running_volume t).getD 0 + v1 + v2⟩ ∧
      st2.gainers.countP (fun p => p.1 == t) = 1 := by
  have h1 := processEvent_known st t c1 v1 P hP hne
  rw [if_pos hq1] at h1
  set st1 : PipelineState :=
    { st with
      running_volume := dinsert st.running_volume t ((dget? st.running_volume t).getD 0 + v1),
      gainers := dinsert st.gainers t
        ⟨c1, (c1 - P) / P * 100, (dget? st.running_volume t).getD 0 + v1⟩ } with hst1
  have hP1 : dget? st1.yesterday_close t = some P := hP
  have hrv1 : dget? st1.running_volume t =
      some ((dget? st.running_volume t).getD 0 + v1) := dget?_dinsert_self ..
  have h2 := processEvent_known st1 t c2 v2 P hP1 hne
  rw [hrv1] at h2
  have hq2' : (c2 - P) / P * 100 ≥ 5 ∧
      ((dget? st.running_volume t).getD 0 + v1 : ℤ) + v2 ≥ 2000000 ∧ c2 ≥ 3 := by
    refine ⟨hq2.1, ?_, hq2.2.2⟩
    have := hq2.2.1
    simpa using this
  rw [Option.getD_some, if_pos hq2'] at h2
  refine ⟨st1, _, h1, h2, ?_, ?_⟩
  · show dget? (dinsert st1.gainers t _) t = _
    rw [dget?_dinsert_self]
  · show (dinsert st1.gainers t _).countP _ = 1
    exact countP_key_dinsert _ _ _ (nodupKeys_dinsert _ _ _ hwf)

/-- Witness for C6: reference 100, two qualifying bars (106, 2,500,000)
then (107, 100,000); one stored record, the one from the second bar. -/
theorem claim_C6_alert_overwrite_witness :
    ∃ st1 st2, processEvent ⟨[("AAPL", 100)], [], []⟩ (mkBar "AAPL" 106 2500000) = some st1 ∧
      processEvent st1 (mkBar "AAPL" 107 100000) = some st2 ∧
      dget? st2.gainers "AAPL" =
        some ⟨107, ((107 : ℚ) - 100) / 100 * 100,
          (dget? ([] : Dict ℤ) "AAPL").getD 0 + 2500000 + 100000⟩ ∧
      st2.gainers.countP (fun p => p.1 == "AAPL") = 1 :=
  claim_C6_alert_overwrite ⟨[("AAPL", 100)], [], []⟩ "AAPL" 100 106 107 2500000 100000
    (by simp) (by simp [dget?]) (by norm_num)
    (by refine ⟨by norm_num, ?_, by norm_num⟩; simp [dget?])
    (by refine ⟨by norm_num, ?_, by norm_num⟩; simp [dget?])

/-- Claim C8: a non-200 reply leaves the reference store empty (the single
fetch returns early, no retry), and whenever the store is empty after
population, `main` reports a fatal startup failure instead of streaming. -/
theorem claim_C8_startup_gate (resp : HttpResponse) (msgs : List StreamMsg) :
    (resp.status ≠ 200 →
      fetch_yesterday_closes resp = [] ∧
        main resp msgs = RunOutcome.fatalStartup) ∧
      (fetch_yesterday_closes resp = [] →
        main resp msgs = RunOutcome.fatalStartup) := by
  have hgate : fetch_yesterday_closes resp = [] →
      main resp msgs = RunOutcome.fatalStartup := by
    intro h
    simp [main, h]
  refine ⟨fun hs => ?_, hgate⟩
  have hempty : fetch_yesterday_closes resp = [] := by
    rw [fetch_yesterday_closes, if_pos hs]
  exact ⟨hempty, hgate hempty⟩

/-- Witness for C8 at a concrete 404 reply whose payload even carries a
result: the store stays empty and startup aborts. -/
theorem claim_C8_startup_gate_witness :
    fetch_yesterday_closes ⟨404, some [("AAPL", 100)]⟩ = [] ∧
      main ⟨404, some [("AAPL", 100)]⟩ [] = RunOutcome.fatalStartup :=
  (claim_C8_startup_gate ⟨404, some [("AAPL", 100)]⟩ []).1 (by norm_num)

/-- The AlertSink invariant of claim C10: every stored record clears the
three thresholds and its ticker is a key of both the reference store and
the running-volume dict. -/
def GainersInv (st : PipelineState) : Prop :=
  ∀ t r, dget? st.gainers t = some r →
    r.pct_change ≥ 5 ∧ r.volume ≥ 2000000 ∧ r.price ≥ 3 ∧
      (dget? st.yesterday_close t).isSome ∧ (dget? st.running_volume t).isSome

/-- One event step keeps the AlertSink invariant. -/
theorem processEvent_gainersInv (st : PipelineState) (e : RawEvent)
    (st' : PipelineState) (h : processEvent st e = some st')
    (hinv : GainersInv st) : GainersInv st' := by
  obtain ⟨ev, T, c, v⟩ := e
  rw [processEvent] at h
  by_cases hev : ev = some "AM"
  · rw [if_pos hev] at h
    rcases T with _ | t
    · exact absurd h (by simp)
    rcases c with _ | cp
    · exact absurd h (by simp)
    rcases v with _ | vol
    · exact absurd h (by simp)
    dsimp only at h
    cases hyc : dget? st.yesterday_close t with
    | none =>
      rw [hyc] at h
      injection h with h
      subst h; exact hinv
    | some P =>
      rw [hyc] at h
      dsimp only at h
      cases hg : gainerEval P cp ((dget? st.running_volume t).getD 0 + vol) with
      | none => rw [hg] at h; exact absurd h (by simp)
      | some qp =>
        rw [hg] at h
        obtain ⟨q, pct⟩ := qp
        dsimp only at h
        rw [gainerEval] at hg
        by_cases hP0 : P = 0
        · rw [if_pos hP0] at hg
          exact absurd hg (by simp)
        rw [if_neg hP0] at hg
        simp only [Option.some.injEq, Prod.mk.injEq] at hg
        obtain ⟨hq, hpct⟩ := hg
        cases q with
        | false =>
          rw [if_neg (by simp)] at h
          injection h with h
          subst h
          intro t' r hr
          obtain ⟨h1, h2, h3, h4, h5⟩ := hinv t' r hr
          exact ⟨h1, h2, h3, h4, isSome_dget?_dinsert _ _ _ _ h5⟩
        | true =>
          rw [if_pos rfl] at h
          injection h with h
          subst h
          simp only [Bool.and_eq_true, decide_eq_true_eq] at hq
          intro t' r hr
          by_cases ht : t' = t
          · subst ht
            rw [dget?_dinsert_self] at hr
            injection hr with hr
            subst hr
            refine ⟨hpct ▸ hq.1.1, hq.1.2, hq.2, ?_, ?_⟩
            · rw [hyc]; rfl
            · rw [dget?_dinsert_self]; rfl
          · rw [dget?_dinsert_ne _ _ _ _ ht] at hr
            obtain ⟨h1, h2, h3, h4, h5⟩ := hinv t' r hr
            exact ⟨h1, h2, h3, h4, isSome_dget?_dinsert _ _ _ _ h5⟩
  · rw [if_neg hev] at h
    injection h with h
    subst h; exact hinv

/-- The event loop of one message keeps the AlertSink invariant. -/
theorem processEvents_gainersInv (es : List RawEvent) (st : PipelineState)
    (hinv : GainersInv st) : GainersInv (processEvents st es).1 := by
  induction es generalizing st with
  | nil => exact hinv
  | cons e es ih =>
    rw [processEvents]
    cases he : processEvent st e with
    | none => exact hinv
    | some st' => exact ih st' (processEvent_gainersInv st e st' he hinv)

/-- Claim C10: the AlertSink invariant is kept by every pipeline step —
after any run of the stream loop from a state satisfying it, every stored
gainer record still has `pct_change ≥ 5`, `volume ≥ 2000000` and
`price ≥ 3`, and its ticker is a key of both the reference store and the
running-volume dict. -/
theorem claim_C10_sink_invariant (st : PipelineState) (msgs : List StreamMsg)
    (hinv : GainersInv st) : GainersInv (streamLoop st msgs).1 := by
  induction msgs generalizing st with
  | nil => exact hinv
  | cons m ms ih =>
    rw [streamLoop]
    cases m with
    | malformed => exact hinv
    | events es =>
      cases hp : processEvents st es with
      | mk st' b =>
        have hinv' : GainersInv st' := by
          have := processEvents_gainersInv es st hinv
          rw [hp] at this; exact this
        cases b with
        | true => simpa [processMsg, hp] using hinv'
        | false => simp only [processMsg, hp]; exact ih st' hinv'

/-- Witness for C10: the empty-sink start state trivially satisfies the
invariant, and it survives a run that does write an alert. -/
theorem claim_C10_sink_invariant_witness :
    GainersInv (streamLoop ⟨[("AAPL", 100)], [], []⟩
      [StreamMsg.events [mkBar "AAPL" 110 3000000]]).1 :=
  claim_C10_sink_invariant ⟨[("AAPL", 100)], [], []⟩
    [StreamMsg.events [mkBar "AAPL" 110 3000000]]
    (fun t r hr => absurd hr (by simp [dget?]))

/-! ### TradingDayResolver (`src/main.py` lines 18-31)

`get_last_trading_day` works on `datetime.date` values; the proleptic
Gregorian calendar arithmetic below follows CPython's `datetime` module
(`_ymd2ord`, `_ord2ymd`, `weekday`, `strftime('%Y-%m-%d')`). -/

/-- A `datetime.date`: a proleptic Gregorian calendar date. -/
structure Date where
  year : ℕ
  month : ℕ
  day : ℕ
deriving DecidableEq

/-- `_DAYS_IN_MONTH` (non-leap), index `m - 1`. -/
def DAYS_IN_MONTH : List ℕ := [31, 28, 31, 30, 31, 30, 31, 31, 30, 31, 30, 31]

/-- `_DAYS_BEFORE_MONTH` (non-leap), index `m - 1`. -/
def DAYS_BEFORE_MONTH : List ℕ :=
  [0, 31, 59, 90, 120, 151, 181, 212, 243, 273, 304, 334]

/-- `_is_leap`. -/
def isLeap (y : ℕ) : Bool :=
  decide (y % 4 = 0) && (decide (y % 100 ≠ 0) || decide (y % 400 = 0))

/-- `_days_before_year`. -/
def daysBeforeYear (y : ℕ) : ℕ :=
  (y - 1) * 365 + (y - 1) / 4 - (y - 1) / 100 + (y - 1) / 400

/-- `_days_before_month`. -/
def daysBeforeMonth (y m : ℕ) : ℕ :=
  DAYS_BEFORE_MONTH.getD (m - 1) 0 + (if 2 < m ∧ isLeap y then 1 else 0)

/-- `_days_in_month`. -/
def daysInMonth (y m : ℕ) : ℕ :=
  if m = 2 ∧ isLeap y then 29 else DAYS_IN_MONTH.getD (m - 1) 0

/-- `date.toordinal` (`_ymd2ord`): day 1 is 0001-01-01. -/
def toOrdinal (d : Date) : ℕ :=
  daysBeforeYear d.year + daysBeforeMonth d.year d.month + d.day

/-- `date.fromordinal` (`_ord2ymd`), CPython's 400-year-cycle
decomposition. -/
def fromOrdinal (n0 : ℕ) : Date :=
  let n := n0 - 1
  let n400 := n / 146097
  let r400 := n % 146097
  let n100 := r400 / 36524
  let r100 := r400 % 36524
  let n4 := r100 / 1461
  let r4 := r100 % 1461
  let n1 := r4 / 365
  let r1 := r4 % 365
  let year := n400 * 400 + 1 + n100 * 100 + n4 * 4 + n1
  if n1 = 4 ∨ n100 = 4 then ⟨year - 1, 12, 31⟩
  else
    let month := (r1 + 50) / 32
    let preceding := daysBeforeMonth year month
    if r1 < preceding then
      ⟨year, month - 1, r1 - (preceding - daysInMonth year (month - 1)) + 1⟩
    else ⟨year, month, r1 - preceding + 1⟩

/-- `date.weekday`: Monday is 0, Sunday is 6. -/
def pyWeekday (d : Date) : ℕ := (toOrdinal d + 6) % 7

/-- Zero-pad to two digits, as `%m` / `%d` do. -/
def pad2 (n : ℕ) : String := if n < 10 then "0" ++ toString n else toString n

/-- Zero-pad to four digits, as `%Y` does for calendar years. -/
def pad4 (n : ℕ) : String :=
  if n < 10 then "000" ++ toString n
  else if n < 100 then "00" ++ toString n
  else if n < 1000 then "0" ++ toString n
  else toString n

/-- `strftime('%Y-%m-%d')`. -/
def isoFormat (d : Date) : String :=
  pad4 d.year ++ "-" ++ pad2 d.month ++ "-" ++ pad2 d.day

/-- `d - timedelta(days=k)`. -/
def subDays (d : Date) (k : ℕ) : Date := fromOrdinal (toOrdinal d - k)

/-- Lines 18-31: `get_last_trading_day`, parameterised by the value of
`date.today()`. -/
def get_last_trading_day (today : Date) : String :=
  let offset : ℕ :=
    if pyWeekday today = 6 then 2
    else if pyWeekday today = 0 then 3
    else 1
  isoFormat (subDays today offset)

/-- Claim C7: the resolver returns the ISO `YYYY-MM-DD` rendering of the
date two days back on a Sunday, three days back on a Monday, and one day
back otherwise. -/
theorem claim_C7_trading_day_resolver (d : Date) :
    (pyWeekday d = 6 → get_last_trading_day d = isoFormat (subDays d 2)) ∧
      (pyWeekday d = 0 → get_last_trading_day d = isoFormat (subDays d 3)) ∧
      (pyWeekday d ≠ 6 ∧ pyWeekday d ≠ 0 →
        get_last_trading_day d = isoFormat (subDays d 1)) := by
  refine ⟨fun h => ?_, fun h => ?_, fun h => ?_⟩
  · simp [get_last_trading_day, h]
  · simp [get_last_trading_day, h]
  · simp [get_last_trading_day, h.1, h.2]

/-- Witness for C7 at concrete dates, one per branch: Sunday 2026-10-11
and Monday 2026-10-12 both resolve to Friday 2026-10-09, Monday 2026-03-02
crosses a month boundary to Friday 2026-02-27, and Thursday 2026-01-01
crosses a year boundary to Wednesday 2025-12-31. -/
theorem claim_C7_trading_day_resolver_witness :
    get_last_trading_day ⟨2026, 10, 11⟩ = isoFormat (subDays ⟨2026, 10, 11⟩ 2) ∧
      get_last_trading_day ⟨2026, 10, 12⟩ = isoFormat (subDays ⟨2026, 10, 12⟩ 3) ∧
      get_last_trading_day ⟨2026, 1, 1⟩ = isoFormat (subDays ⟨2026, 1, 1⟩ 1) ∧
      get_last_trading_day ⟨2026, 10, 11⟩ = "2026-10-09" ∧
      get_last_trading_day ⟨2026, 10, 12⟩ = "2026-10-09" ∧
      get_last_trading_day ⟨2026, 3, 2⟩ = "2026-02-27" ∧
      get_last_trading_day ⟨2026, 1, 1⟩ = "2025-12-31" :=
  ⟨(claim_C7_trading_day_resolver ⟨2026, 10, 11⟩).1 (by decide),
    (claim_C7_trading_day_resolver ⟨2026, 10, 12⟩).2.1 (by decide),
    (claim_C7_trading_day_resolver ⟨2026, 1, 1⟩).2.2 (by decide),
    by decide, by decide, by decide, by decide⟩

end TradingData
